import Mathlib

/-!
# Verification of the `avslice` timestamp pipeline (`slice.py`)

A shallow embedding of the timestamp-transformation pipeline of `slice.py`.
Time values are modelled as exact rationals (the script computes with Python
floats; every value appearing in the theorems below is exactly representable,
and the algebraic claims are about the idealized arithmetic the spec
describes).  Strings are modelled as `List Char` internally, converted to
`String` at the function boundaries that mirror the Python functions.
Fallible code (exceptions) is modelled with `Option`.
-/

namespace Avslice

/-! ## Decimal digit rendering (Python `%d`, `%02d`, `%06d`) -/

/-- The character for decimal digit `d % 10`. -/
def dChar (d : ℕ) : Char := Char.ofNat (48 + d % 10)

/-- Is `c` an ASCII decimal digit? -/
def isDigitCh (c : Char) : Bool := 48 ≤ c.toNat && c.toNat ≤ 57

/-- Numeric value of an ASCII digit character. -/
def digitVal (c : Char) : ℕ := c.toNat - 48

def natDigitsGo : ℕ → ℕ → List Char → List Char
  | 0, _, acc => acc
  | fuel+1, n, acc =>
    if n < 10 then dChar n :: acc else natDigitsGo fuel (n / 10) (dChar (n % 10) :: acc)

/-- Decimal digits of `n`, most significant first (Python `"%d" % n` for `n ≥ 0`). -/
def natDigits (n : ℕ) : List Char := natDigitsGo (n + 1) n []

/-- Python `"%0kd" % n` for `0 ≤ n < 10^k`: exactly the `k` low decimal digits of
`n`, zero padded, most significant first.  (For `n ≥ 10^k`, `%0kd` would print
more digits; every use below satisfies the bound.) -/
def padDigits (k n : ℕ) : List Char :=
  (List.range k).reverse.map (fun i => dChar (n / 10 ^ i % 10))

/-- Python `"%d" % z` for an integer. -/
def intDigits (z : ℤ) : List Char :=
  if z < 0 then '-' :: natDigits z.natAbs else natDigits z.natAbs

/-- Python `str.rjust k c`. -/
def rjustL (k : ℕ) (c : Char) (l : List Char) : List Char :=
  List.replicate (k - l.length) c ++ l

/-! ## `str(datetime.timedelta(seconds=q))` -/

def usPerDay : ℤ := 86400000000

/-- Round half to even: the rounding Python applies to the fractional
microseconds when building a `timedelta` from a float `seconds` value. -/
def rhe (q : ℚ) : ℤ :=
  let d : ℤ := (q.den : ℤ)
  let f : ℤ := q.num.fdiv d
  let r2 : ℤ := 2 * (q.num - f * d)
  if r2 < d then f
  else if d < r2 then f + 1
  else if f % 2 = 0 then f else f + 1

/-- `"%d:%02d:%02d"` applied to the hour/minute/second split of `secs`. -/
def tdCore (secs : ℕ) : List Char :=
  natDigits (secs / 3600) ++ ':' :: padDigits 2 (secs / 60 % 60) ++ ':' :: padDigits 2 (secs % 60)

/-- The `"%d day%s, "` prefix `timedelta.__str__` adds when `days ≠ 0`. -/
def tdDays (days : ℤ) (core : List Char) : List Char :=
  if days = 0 then core
  else
    intDigits days ++ ' ' :: 'd' :: 'a' :: 'y' ::
      ((if days = 1 ∨ days = -1 then [] else ['s']) ++ ',' :: ' ' :: core)

/-- `str(timedelta(microseconds=us))`: normalize `us` into days (floor
division), in-day seconds and leftover microseconds, then render as the CPython
method timedelta.__str__ does. -/
def tdStrUS (us : ℤ) : List Char :=
  tdDays (us.fdiv usPerDay) (tdCore ((us.fmod usPerDay).toNat / 1000000)) ++
    (if (us.fmod usPerDay).toNat % 1000000 = 0 then []
     else '.' :: padDigits 6 ((us.fmod usPerDay).toNat % 1000000))

/-- `str(datetime.timedelta(seconds=q))` as a char list. -/
def timedeltaStr (q : ℚ) : List Char := tdStrUS (rhe (q * 1000000))

/-! ## `conv_time`, float branch (seconds → subtitle string) -/

/-- `time.replace(".", ",")`, character-wise (the string holds at most one `.`). -/
def commaize (c : Char) : Char := if c = '.' then ',' else c

/-- `if len(time) in (6, 7)`, append the six-zero microsecond tail `,000000`. -/
def pad67 (l : List Char) : List Char :=
  if l.length = 6 ∨ l.length = 7 then l ++ (',' :: '0' :: '0' :: '0' :: '0' :: '0' :: '0' :: []) else l

/-- `time[:-3]`. -/
def dropLast3 (l : List Char) : List Char := l.take (l.length - 3)

/-- The float branch of `conv_time`: `0` maps to the literal, otherwise the
`timedelta` string is comma-ized, possibly extended with `,000000`, truncated
by three characters and right-justified to width 12 with `'0'`. -/
def conv_time_chars (q : ℚ) : List Char :=
  if q = 0 then '0' :: '0' :: ':' :: '0' :: '0' :: ':' :: '0' :: '0' :: ',' :: '0' :: '0' :: '0' :: []
  else rjustL 12 '0' (dropLast3 (pad67 ((timedeltaStr q).map commaize)))

/-- `conv_time` on a float input (the direction the key writer uses). -/
def conv_time (q : ℚ) : String := String.mk (conv_time_chars q)

/-! ## `strptime`-style parsers

The CPython module `_strptime` compiles each directive to a regex alternation:
`%H` = `2[0-3]|[0-1]\d|\d`, `%M` = `[0-5]\d|\d`, `%S` = `6[0-1]|[0-5]\d|\d`,
`%f` = `[0-9]{1,6}` (right padded with zeros to microseconds), and requires the
whole input string to be consumed. -/

/-- One or two digit field for `%H` (value `0..23`). -/
def parseHH : List Char → Option (ℕ × List Char)
  | [] => none
  | c0 :: rest0 =>
    if isDigitCh c0 then
      match rest0 with
      | c1 :: rest1 =>
        if isDigitCh c1 ∧ 10 * digitVal c0 + digitVal c1 ≤ 23 then
          some (10 * digitVal c0 + digitVal c1, rest1)
        else some (digitVal c0, rest0)
      | [] => some (digitVal c0, [])
    else none

/-- One or two digit field for `%M` (value `0..59`). -/
def parseMM : List Char → Option (ℕ × List Char)
  | [] => none
  | c0 :: rest0 =>
    if isDigitCh c0 then
      match rest0 with
      | c1 :: rest1 =>
        if isDigitCh c1 ∧ digitVal c0 ≤ 5 then
          some (10 * digitVal c0 + digitVal c1, rest1)
        else some (digitVal c0, rest0)
      | [] => some (digitVal c0, [])
    else none

/-- One or two digit field for `%S` (value `0..61`, as in CPython). -/
def parseSS : List Char → Option (ℕ × List Char)
  | [] => none
  | c0 :: rest0 =>
    if isDigitCh c0 then
      match rest0 with
      | c1 :: rest1 =>
        if isDigitCh c1 ∧ (digitVal c0 ≤ 5 ∨ (digitVal c0 = 6 ∧ digitVal c1 ≤ 1)) then
          some (10 * digitVal c0 + digitVal c1, rest1)
        else some (digitVal c0, rest0)
      | [] => some (digitVal c0, [])
    else none

/-- A literal character in the format string. -/
def parseLit (ch : Char) : List Char → Option (List Char)
  | [] => none
  | c :: rest => if c = ch then some rest else none

def digitsToNat (ds : List Char) : ℕ := ds.foldl (fun a c => 10 * a + digitVal c) 0

/-- `%f`: one to six digits, right padded with zeros to a microsecond count. -/
def parseFrac (l : List Char) : Option (ℕ × List Char) :=
  let ds := (l.takeWhile isDigitCh).take 6
  if ds.isEmpty then none
  else some (digitsToNat ds * 10 ^ (6 - ds.length), l.drop ds.length)

/-- `(strptime(s, fmt) - datetime(1900,1,1)).total_seconds()` for the parsed
hour/minute/second/microsecond fields. -/
def secsOfFields (h m s us : ℕ) : ℚ :=
  ((h * 3600 + m * 60 + s : ℕ) : ℚ) + ((us : ℕ) : ℚ) / 1000000

/-- `strptime(·, "%M:%S")`, full match required. -/
def strptime_MS (l : List Char) : Option ℚ := do
  let (m, r1) ← parseMM l
  let r2 ← parseLit ':' r1
  let (s, r3) ← parseSS r2
  if r3.isEmpty then some (secsOfFields 0 m s 0) else none

/-- `strptime(·, "%H:%M:%S")`, full match required. -/
def strptime_HMS (l : List Char) : Option ℚ := do
  let (h, r1) ← parseHH l
  let r2 ← parseLit ':' r1
  let (m, r3) ← parseMM r2
  let r4 ← parseLit ':' r3
  let (s, r5) ← parseSS r4
  if r5.isEmpty then some (secsOfFields h m s 0) else none

/-- `strptime(·, "%M:%S.%f")`, full match required. -/
def strptime_MSf (l : List Char) : Option ℚ := do
  let (m, r1) ← parseMM l
  let r2 ← parseLit ':' r1
  let (s, r3) ← parseSS r2
  let r4 ← parseLit '.' r3
  let (us, r5) ← parseFrac r4
  if r5.isEmpty then some (secsOfFields 0 m s us) else none

/-- `strptime(·, "%H:%M:%S.%f")`, full match required. -/
def strptime_HMSf (l : List Char) : Option ℚ := do
  let (h, r1) ← parseHH l
  let r2 ← parseLit ':' r1
  let (m, r3) ← parseMM r2
  let r4 ← parseLit ':' r3
  let (s, r5) ← parseSS r4
  let r6 ← parseLit '.' r5
  let (us, r7) ← parseFrac r6
  if r7.isEmpty then some (secsOfFields h m s us) else none

/-- `strptime(·, "%H:%M:%S,%f")`: the subtitle-time format of the string
branch of `conv_time`. -/
def strptime_sub (l : List Char) : Option ℚ := do
  let (h, r1) ← parseHH l
  let r2 ← parseLit ':' r1
  let (m, r3) ← parseMM r2
  let r4 ← parseLit ':' r3
  let (s, r5) ← parseSS r4
  let r6 ← parseLit ',' r5
  let (us, r7) ← parseFrac r6
  if r7.isEmpty then some (secsOfFields h m s us) else none

/-- The string branch of `conv_time` (subtitle string → seconds); `none`
models the uncaught `strptime` exception. -/
def conv_time_str (s : String) : Option ℚ :=
  if s = "00:00:00,000" then some 0 else strptime_sub s.data

/-! ## `parse_secs` and `fz` -/

/-- `parse_secs`: the `time_formats` dict keyed on string length; a length
with no entry makes `strptime` raise (`none`). -/
def parse_secs (ts : String) : Option ℚ :=
  if ts.data.length = 4 ∨ ts.data.length = 5 then strptime_MS ts.data
  else if ts.data.length = 8 then strptime_HMS ts.data
  else if ts.data.length = 9 then strptime_MSf ts.data
  else if ts.data.length = 12 then strptime_HMSf ts.data
  else none

/-- `fz`: add or subtract the fuzz according to `func`, then clamp results
`≤ 0` up to `0`. -/
def fz (ts fuzz : ℚ) (func : String) : ℚ :=
  let t := if func = "+" then ts + fuzz else if func = "-" then ts - fuzz else ts
  if t ≤ 0 then 0 else t

/-! ## The key-builder pipeline (`parse_data_key`) -/

/-- A fuzzed segment `(start, end, label)`. -/
abbrev Seg := ℚ × ℚ × String

/-- An intermediate `(shifted start, shifted end, duration, label)` tuple. -/
abbrev Seg4 := ℚ × ℚ × ℚ × String

/-- Value of `min(tsconv_keys, key=lambda x: x[0])[0]`; `none` models the
`ValueError` Python raises on an empty sequence. -/
def minStart : List Seg → Option ℚ
  | [] => none
  | s :: rest => some (rest.foldl (fun m t => if t.1 < m then t.1 else m) s.1)

/-- The tuple `(x - tsmin, y - tsmin, y - x, lab)` built for each segment. -/
def shiftF (m : ℚ) (s : Seg) : Seg4 := (s.1 - m, s.2.1 - m, s.2.1 - s.1, s.2.2)

/-- Shift the two absolute fields of an intermediate tuple by `-m`, keeping
duration and label: relates the re-based pipeline to the non-re-based one. -/
def shAdj (m : ℚ) (t : Seg4) : Seg4 := (t.1 - m, t.2.1 - m, t.2.2.1, t.2.2.2)

/-- Insert `s` after every element whose key is at most the key of `s`: one
step of a stable insertion sort, extensionally equal to the stable Python
`sorted(..., key=lambda x: x[0])`. -/
def insertSeg (s : Seg4) : List Seg4 → List Seg4
  | [] => [s]
  | t :: ts => if t.1 ≤ s.1 then t :: insertSeg s ts else s :: t :: ts

/-- Stable ascending sort by the first component. -/
def sortSegs (l : List Seg4) : List Seg4 :=
  l.foldl (fun acc s => insertSeg s acc) []

/-- The gap-closing walk: each segment starts where the previous one ended
(`prev_ts2`, initially `0`) and ends after its own duration. -/
def walk (c : ℚ) : List Seg4 → List Seg
  | [] => []
  | (_, _, dur, lab) :: rest => (c, c + dur, lab) :: walk (c + dur) rest

/-- The numeric part of `parse_data_key` after fuzzing: re-base at the minimum
start, sort, and close the gaps.  `none` models the crash on an empty list. -/
def keyTimeline (segs : List Seg) : Option (List Seg) :=
  match minStart segs with
  | none => none
  | some m => some (walk 0 (sortSegs (segs.map (shiftF m))))

/-- A variant of `keyTimeline` with the re-basing subtraction removed
(`tsshift = [(x, y, y - x, lab) ...]`), used to state the refinement claim. -/
def keyTimelineNoShift (segs : List Seg) : List Seg :=
  walk 0 (sortSegs (segs.map (fun s => (s.1, s.2.1, s.2.1 - s.1, s.2.2))))

/-- Fuzz one parsed row: `(fz(x, fuzz, '-'), fz(y, fuzz), lab)`. -/
def fuzzSeg (fuzz : ℚ) (s : Seg) : Seg := (fz s.1 fuzz "-", fz s.2.1 fuzz "+", s.2.2)

/-- `parse_data_key` on segments that are already in seconds. -/
def parse_data_key_num (segs : List Seg) (fuzz : ℚ) : Option (List Seg) :=
  keyTimeline (segs.map (fuzzSeg fuzz))

/-- Transliteration by the external `unidecode` library, restricted to ASCII
passthrough plus the accented Latin letters exercised in this development;
`unidecode` maps characters outside its table to the empty string. -/
def unidecodeChar (c : Char) : List Char :=
  if c.toNat < 128 then [c]
  else if c = 'é' ∨ c = 'è' ∨ c = 'ê' ∨ c = 'ë' then ['e']
  else if c = 'à' ∨ c = 'â' ∨ c = 'ä' then ['a']
  else if c = 'ç' then ['c']
  else if c = 'î' ∨ c = 'ï' then ['i']
  else if c = 'ô' ∨ c = 'ö' then ['o']
  else if c = 'ù' ∨ c = 'û' ∨ c = 'ü' then ['u']
  else []

def unidecode (s : String) : String := String.mk ((s.data.map unidecodeChar).flatten)

/-- Left-to-right `Option` traversal: the first failing element raises. -/
def mapOpt (f : α → Option β) : List α → Option (List β)
  | [] => some []
  | x :: xs =>
    match f x with
    | none => none
    | some y => (mapOpt f xs).map (fun ys => y :: ys)

/-- Parse and fuzz one CSV row. -/
def parseRow (fuzz : ℚ) (row : String × String × String) : Option Seg := do
  let x ← parse_secs row.1
  let y ← parse_secs row.2.1
  some (fz x fuzz "-", fz y fuzz "+", row.2.2)

/-- `parse_data_key`: rows of time strings to key rows of subtitle strings. -/
def parse_data_key (tsdata : List (String × String × String)) (fuzz : ℚ) :
    Option (List (String × String × String)) := do
  let segs ← mapOpt (parseRow fuzz) tsdata
  let tl ← keyTimeline segs
  some (tl.map (fun s => (conv_time s.1, conv_time s.2.1, unidecode s.2.2)))

/-! ## The command-builder pipeline (`parse_data_ffmpeg`, `ts_to_cmd`) -/

/-- `parse_data_ffmpeg`: fuzzed absolute `(start, end)` pairs. -/
def parse_data_ffmpeg (tsdata : List (String × String × String)) (fuzz : ℚ) :
    Option (List (ℚ × ℚ)) :=
  mapOpt (fun row => do
    let x ← parse_secs row.1
    let y ← parse_secs row.2.1
    some (fz x fuzz "-", fz y fuzz "+")) tsdata

def fracDigitsGo : ℕ → ℕ → ℕ → List Char
  | 0, _, _ => []
  | fuel+1, f, d =>
    if f * 10 % d = 0 then [dChar (f * 10 / d)]
    else dChar (f * 10 / d) :: fracDigitsGo fuel (f * 10 % d) d

/-- `str()` of a Python float, modelled exactly on rationals whose decimal
expansion terminates within six places (every value the command builder
formats in this development); Python prints the shortest round-tripping
decimal, which agrees with the exact expansion on these values. -/
def pyFloatStr (q : ℚ) : List Char :=
  (if q < 0 then ['-'] else []) ++ natDigits (q.num.natAbs / q.den) ++
    '.' :: (if q.num.natAbs % q.den = 0 then ['0']
            else fracDigitsGo 6 (q.num.natAbs % q.den) q.den)

/-- One `between(t,{x},{y})` term of the f-string in `ts_to_cmd`. -/
def betweenExpr (p : ℚ × ℚ) : List Char :=
  'b' :: 'e' :: 't' :: 'w' :: 'e' :: 'e' :: 'n' :: '(' :: 't' :: ',' ::
    (pyFloatStr p.1 ++ ',' :: pyFloatStr p.2 ++ [')'])

/-- Joining with the plus sign (`.join` on the list of terms). -/
def joinPlus : List (List Char) → List Char
  | [] => []
  | [x] => x
  | x :: y :: xs => x ++ '+' :: joinPlus (y :: xs)

/-- The selection predicate `ts_to_cmd` builds (`cmd = '+'.join(...)`). -/
def cmdSelect (ts : List (ℚ × ℚ)) : String :=
  String.mk (joinPlus (ts.map betweenExpr))

/-! ## The subtitle output format, as the spec words it -/

/-- Zero-padded `HH:MM:SS,mmm`: hour field right-justified to at least two
digits, exactly three (truncated) fractional digits, comma separator. -/
def subtitleChars (h m s ms : ℕ) : List Char :=
  rjustL 2 '0' (natDigits h) ++ ':' :: padDigits 2 m ++ ':' :: padDigits 2 s ++
    ',' :: padDigits 3 ms


/-! ## Digit and character lemmas -/

lemma digitVal_dChar (m : ℕ) : digitVal (dChar m) = m % 10 := by
  obtain ⟨d, hd⟩ : ∃ d, m % 10 = d := ⟨_, rfl⟩
  have h : d < 10 := by omega
  unfold dChar
  rw [hd]
  interval_cases d <;> decide

lemma isDigitCh_dChar (m : ℕ) : isDigitCh (dChar m) = true := by
  obtain ⟨d, hd⟩ : ∃ d, m % 10 = d := ⟨_, rfl⟩
  have h : d < 10 := by omega
  unfold dChar
  rw [hd]
  interval_cases d <;> decide

lemma dChar_ne_dot (m : ℕ) : dChar m ≠ '.' := by
  obtain ⟨d, hd⟩ : ∃ d, m % 10 = d := ⟨_, rfl⟩
  have h : d < 10 := by omega
  unfold dChar
  rw [hd]
  interval_cases d <;> decide

lemma commaize_dChar (m : ℕ) : commaize (dChar m) = dChar m := by
  unfold commaize
  rw [if_neg (dChar_ne_dot m)]

lemma natDigits_lt_ten {n : ℕ} (h : n < 10) : natDigits n = [dChar n] := by
  unfold natDigits natDigitsGo
  simp [h]

lemma natDigits_two {n : ℕ} (h1 : 10 ≤ n) (h2 : n < 100) :
    natDigits n = [dChar (n / 10), dChar (n % 10)] := by
  obtain ⟨k, hk⟩ : ∃ k, n = k + 1 := ⟨n - 1, by omega⟩
  unfold natDigits
  rw [hk, natDigitsGo, if_neg (by omega), natDigitsGo, if_pos (by omega), ← hk]

lemma padDigits_two (n : ℕ) : padDigits 2 n = [dChar (n / 10 % 10), dChar (n % 10)] := by
  simp [padDigits, List.range_succ]

lemma padDigits_three (n : ℕ) :
    padDigits 3 n = [dChar (n / 100 % 10), dChar (n / 10 % 10), dChar (n % 10)] := by
  have h : (100 : ℕ) = 10 ^ 2 := by norm_num
  simp [padDigits, List.range_succ, h]

lemma padDigits_six (n : ℕ) :
    padDigits 6 n = [dChar (n / 100000 % 10), dChar (n / 10000 % 10), dChar (n / 1000 % 10),
      dChar (n / 100 % 10), dChar (n / 10 % 10), dChar (n % 10)] := by
  have h5 : (100000 : ℕ) = 10 ^ 5 := by norm_num
  have h4 : (10000 : ℕ) = 10 ^ 4 := by norm_num
  have h3 : (1000 : ℕ) = 10 ^ 3 := by norm_num
  have h2 : (100 : ℕ) = 10 ^ 2 := by norm_num
  simp [padDigits, List.range_succ, h5, h4, h3, h2]

/-! ## C6: the fuzz adjustment -/

/-- C6: for every elapsed-seconds value `ts ≥ 0`, non-negative fuzz `f`, and
direction, `fz` returns the adjusted value (`ts - f` for the subtracting
direction, `ts + f` for the adding direction) clamped at a floor of `0`, so
the result is never negative; in particular `fz (1/2) 2 "-" = 0`. -/
theorem fz_clamps (ts f : ℚ) (hts : 0 ≤ ts) (hf : 0 ≤ f) :
    fz ts f "-" = max 0 (ts - f) ∧
    fz ts f "+" = ts + f ∧
    (∀ dir : String, 0 ≤ fz ts f dir) ∧
    fz (1/2) 2 "-" = 0 := by
  have hminus : fz ts f "-" = if ts - f ≤ 0 then 0 else ts - f := by
    unfold fz
    rw [if_neg (show ¬("-" : String) = "+" by decide), if_pos (show ("-" : String) = "-" from rfl)]
  have hplus : fz ts f "+" = if ts + f ≤ 0 then 0 else ts + f := by
    unfold fz
    rw [if_pos (show ("+" : String) = "+" from rfl)]
  refine ⟨?_, ?_, ?_, by with_unfolding_all decide⟩
  · rw [hminus]
    rcases le_or_lt (ts - f) 0 with h | h
    · rw [if_pos h, max_eq_left h]
    · rw [if_neg (not_le.mpr h), max_eq_right h.le]
  · rw [hplus]
    rcases le_or_lt (ts + f) 0 with h | h
    · rw [if_pos h]
      linarith
    · rw [if_neg (not_le.mpr h)]
  · intro dir
    unfold fz
    dsimp only
    rcases le_or_lt (if dir = "+" then ts + f else if dir = "-" then ts - f else ts) 0 with h | h
    · rw [if_pos h]
    · rw [if_neg (not_le.mpr h)]
      exact h.le

/-- Witness for `fz_clamps` at `ts = 1/2`, `f = 2`. -/
theorem fz_clamps_witness :
    fz (1/2) 2 "-" = max 0 ((1:ℚ)/2 - 2) ∧ fz (1/2) 2 "+" = 1/2 + 2 := by
  obtain ⟨h1, h2, _, _⟩ := fz_clamps (1/2) 2 (by norm_num) (by norm_num)
  exact ⟨h1, h2⟩

/-! ## C9: empty input is fatal -/

/-- C9: with zero segments, the minimum-start computation fails (modelled by
`none`, the `ValueError` from `min` on an empty sequence), so `parse_data_key`
produces no key output for any fuzz value. -/
theorem parse_data_key_empty_fatal (fuzz : ℚ) :
    parse_data_key [] fuzz = none ∧
    minStart [] = none ∧
    keyTimeline ([] : List Seg) = none :=
  ⟨rfl, rfl, rfl⟩

/-! ## C5: the length-keyed format table of parse_secs -/

/-- C5: human-timestamp parsing accepts exactly the string lengths 4 or 5
(minutes, seconds), 8 (hours, minutes, seconds), 9 (minutes, seconds,
fraction) and 12 (hours, minutes, seconds, fraction), dispatching each length
to the corresponding strptime template and returning elapsed seconds as a
number; for every input string of any other length the format lookup misses
and the call fails fatally (modelled by `none`). -/
theorem parse_secs_length_gate (s : String)
    (h : ¬(s.data.length = 4 ∨ s.data.length = 5 ∨ s.data.length = 8 ∨
          s.data.length = 9 ∨ s.data.length = 12)) :
    parse_secs s = none ∧
    (∀ t : String, t.data.length = 4 ∨ t.data.length = 5 → parse_secs t = strptime_MS t.data) ∧
    (∀ t : String, t.data.length = 8 → parse_secs t = strptime_HMS t.data) ∧
    (∀ t : String, t.data.length = 9 → parse_secs t = strptime_MSf t.data) ∧
    (∀ t : String, t.data.length = 12 → parse_secs t = strptime_HMSf t.data) ∧
    parse_secs "00:10" = some 10 ∧
    parse_secs "00:00:10" = some 10 ∧
    parse_secs "00:10.500" = some (21/2) ∧
    parse_secs "01:01:01.250" = some (14645/4) ∧
    parse_secs "0:00:10" = none ∧
    parse_secs "" = none := by
  refine ⟨?_, ?_, ?_, ?_, ?_, ?_, ?_, ?_, ?_, rfl, rfl⟩
  · unfold parse_secs
    rw [if_neg (by omega), if_neg (by omega), if_neg (by omega), if_neg (by omega)]
  · intro t ht
    unfold parse_secs
    rw [if_pos ht]
  · intro t ht
    unfold parse_secs
    rw [if_neg (by omega), if_pos ht]
  · intro t ht
    unfold parse_secs
    rw [if_neg (by omega), if_neg (by omega), if_pos ht]
  · intro t ht
    unfold parse_secs
    rw [if_neg (by omega), if_neg (by omega), if_neg (by omega), if_pos ht]
  · have he : parse_secs "00:10" = some (secsOfFields 0 0 10 0) := rfl
    rw [he]
    norm_num [secsOfFields]
  · have he : parse_secs "00:00:10" = some (secsOfFields 0 0 10 0) := rfl
    rw [he]
    norm_num [secsOfFields]
  · have he : parse_secs "00:10.500" = some (secsOfFields 0 0 10 500000) := rfl
    rw [he]
    norm_num [secsOfFields]
  · have he : parse_secs "01:01:01.250" = some (secsOfFields 1 1 1 250000) := rfl
    rw [he]
    norm_num [secsOfFields]

/-- Witness for `parse_secs_length_gate` at the length-3 string `abc`. -/
theorem parse_secs_length_gate_witness :
    parse_secs "abc" = none ∧ parse_secs "00:10" = some 10 := by
  obtain ⟨h1, _, _, _, _, h2, _⟩ := parse_secs_length_gate "abc" (by decide)
  exact ⟨h1, h2⟩

/-! ## Sorting and gap-closing lemmas -/

lemma insertSeg_perm (s : Seg4) (l : List Seg4) : (insertSeg s l).Perm (s :: l) := by
  induction l with
  | nil => rfl
  | cons t ts ih =>
    unfold insertSeg
    by_cases h : t.1 ≤ s.1
    · rw [if_pos h]
      exact (ih.cons t).trans (List.Perm.swap s t ts)
    · rw [if_neg h]

lemma foldl_insert_perm (l : List Seg4) :
    ∀ acc : List Seg4, (l.foldl (fun a s => insertSeg s a) acc).Perm (acc ++ l) := by
  induction l with
  | nil => intro acc; simp
  | cons s ss ih =>
    intro acc
    simp only [List.foldl_cons]
    refine (ih (insertSeg s acc)).trans ?_
    refine (((insertSeg_perm s acc).append_right ss).trans ?_)
    simpa using List.perm_middle.symm

lemma sortSegs_perm (l : List Seg4) : (sortSegs l).Perm l := by
  simpa using foldl_insert_perm l []

lemma insertSeg_pairwise {s : Seg4} {l : List Seg4}
    (h : l.Pairwise (fun a b => a.1 ≤ b.1)) :
    (insertSeg s l).Pairwise (fun a b => a.1 ≤ b.1) := by
  induction l with
  | nil => simp [insertSeg]
  | cons t ts ih =>
    rw [List.pairwise_cons] at h
    obtain ⟨ht, hts⟩ := h
    unfold insertSeg
    by_cases hc : t.1 ≤ s.1
    · rw [if_pos hc]
      rw [List.pairwise_cons]
      refine ⟨?_, ih hts⟩
      intro x hx
      rcases List.mem_cons.mp ((insertSeg_perm s ts).mem_iff.mp hx) with rfl | hmem
      · exact hc
      · exact ht x hmem
    · rw [if_neg hc]
      have hs : s.1 ≤ t.1 := (not_le.mp hc).le
      rw [List.pairwise_cons]
      refine ⟨?_, List.pairwise_cons.mpr ⟨ht, hts⟩⟩
      intro x hx
      rcases List.mem_cons.mp hx with rfl | hmem
      · exact hs
      · exact hs.trans (ht x hmem)

lemma foldl_insert_pairwise (l : List Seg4) :
    ∀ acc : List Seg4, acc.Pairwise (fun a b => a.1 ≤ b.1) →
      (l.foldl (fun a s => insertSeg s a) acc).Pairwise (fun a b => a.1 ≤ b.1) := by
  induction l with
  | nil => intro acc h; simpa using h
  | cons s ss ih =>
    intro acc h
    simp only [List.foldl_cons]
    exact ih _ (insertSeg_pairwise h)

lemma sortSegs_pairwise (l : List Seg4) :
    (sortSegs l).Pairwise (fun a b => a.1 ≤ b.1) :=
  foldl_insert_pairwise l [] (List.Pairwise.nil)

lemma insertSeg_filter (s : Seg4) (l : List Seg4) (k : ℚ)
    (h : l.Pairwise (fun a b => a.1 ≤ b.1)) :
    (insertSeg s l).filter (fun t => decide (t.1 = k)) =
      l.filter (fun t => decide (t.1 = k)) ++ (if s.1 = k then [s] else []) := by
  induction l with
  | nil =>
    by_cases hk : s.1 = k <;> simp [insertSeg, hk]
  | cons t ts ih =>
    rw [List.pairwise_cons] at h
    obtain ⟨ht, hts⟩ := h
    unfold insertSeg
    by_cases hc : t.1 ≤ s.1
    · rw [if_pos hc]
      by_cases hk : t.1 = k <;> simp [List.filter_cons, hk, ih hts]
    · rw [if_neg hc]
      have hs : s.1 < t.1 := not_le.mp hc
      by_cases hk : s.1 = k
      · have hnil : (t :: ts).filter (fun u => decide (u.1 = k)) = [] := by
          rw [List.filter_eq_nil_iff]
          intro u hu
          have hle : t.1 ≤ u.1 := by
            rcases List.mem_cons.mp hu with rfl | h2
            · exact le_refl _
            · exact ht u h2
          simp only [decide_eq_true_eq]
          intro he
          rw [he, ← hk] at hle
          exact absurd hle (not_le.mpr hs)
        simp [List.filter_cons, hk, hnil]
      · simp [List.filter_cons, hk]

lemma foldl_insert_filter (l : List Seg4) (k : ℚ) :
    ∀ acc : List Seg4, acc.Pairwise (fun a b => a.1 ≤ b.1) →
      (l.foldl (fun a s => insertSeg s a) acc).filter (fun t => decide (t.1 = k)) =
        acc.filter (fun t => decide (t.1 = k)) ++ l.filter (fun t => decide (t.1 = k)) := by
  induction l with
  | nil => intro acc h; simp
  | cons s ss ih =>
    intro acc h
    simp only [List.foldl_cons]
    rw [ih _ (insertSeg_pairwise h), insertSeg_filter s acc k h, List.filter_cons]
    by_cases hk : s.1 = k <;> simp [hk]

lemma sortSegs_filter (l : List Seg4) (k : ℚ) :
    (sortSegs l).filter (fun t => decide (t.1 = k)) = l.filter (fun t => decide (t.1 = k)) := by
  simpa using foldl_insert_filter l k [] (List.Pairwise.nil)

lemma walk_length (c : ℚ) (l : List Seg4) : (walk c l).length = l.length := by
  induction l generalizing c with
  | nil => rfl
  | cons x rest ih =>
    obtain ⟨a, b, dur, lab⟩ := x
    simp [walk, ih]

lemma walk_get_zero (c : ℚ) (l : List Seg4) (h : 0 < (walk c l).length) :
    ((walk c l).get ⟨0, h⟩).1 = c := by
  cases l with
  | nil => simp [walk] at h
  | cons x rest => obtain ⟨a, b, dur, lab⟩ := x; rfl

lemma walk_chain (l : List Seg4) :
    ∀ (c : ℚ) (i : ℕ) (hi : i + 1 < (walk c l).length),
      ((walk c l).get ⟨i + 1, hi⟩).1 = ((walk c l).get ⟨i, Nat.lt_of_succ_lt hi⟩).2.1 := by
  induction l with
  | nil => intro c i hi; simp [walk] at hi
  | cons x rest ih =>
    intro c i hi
    obtain ⟨a, b, dur, lab⟩ := x
    cases i with
    | zero =>
      have hr : 0 < (walk (c + dur) rest).length := by
        have := hi
        simp [walk] at this
        omega
      show ((walk (c + dur) rest).get ⟨0, _⟩).1 = (c, c + dur, lab).2.1
      rw [walk_get_zero (c + dur) rest hr]
    | succ j =>
      have hj : j + 1 < (walk (c + dur) rest).length := by
        have := hi
        simp [walk] at this
        omega
      show ((walk (c + dur) rest).get ⟨j + 1, _⟩).1 = ((walk (c + dur) rest).get ⟨j, _⟩).2.1
      exact ih (c + dur) j hj

lemma walk_durlab (c : ℚ) (l : List Seg4) :
    (walk c l).map (fun p => (p.2.1 - p.1, p.2.2)) = l.map (fun p => (p.2.2.1, p.2.2.2)) := by
  induction l generalizing c with
  | nil => rfl
  | cons x rest ih =>
    obtain ⟨a, b, dur, lab⟩ := x
    simp [walk, ih]

lemma walk_labels (c : ℚ) (l : List Seg4) :
    (walk c l).map (fun p => p.2.2) = l.map (fun p => p.2.2.2) := by
  induction l generalizing c with
  | nil => rfl
  | cons x rest ih =>
    obtain ⟨a, b, dur, lab⟩ := x
    simp [walk, ih]

lemma walk_durs (c : ℚ) (l : List Seg4) :
    (walk c l).map (fun p => p.2.1 - p.1) = l.map (fun p => p.2.2.1) := by
  induction l generalizing c with
  | nil => rfl
  | cons x rest ih =>
    obtain ⟨a, b, dur, lab⟩ := x
    simp [walk, ih]

lemma keyTimeline_eq_some {segs : List Seg} {m : ℚ} (hm : minStart segs = some m) :
    keyTimeline segs = some (walk 0 (sortSegs (segs.map (shiftF m)))) := by
  unfold keyTimeline
  rw [hm]

lemma minStart_of_ne_nil {segs : List Seg} (h : segs ≠ []) :
    ∃ m, minStart segs = some m := by
  cases segs with
  | nil => exact absurd rfl h
  | cons s rest => exact ⟨_, rfl⟩

lemma insertSeg_shAdj (m : ℚ) (s : Seg4) (l : List Seg4) :
    insertSeg (shAdj m s) (l.map (shAdj m)) = (insertSeg s l).map (shAdj m) := by
  induction l with
  | nil => rfl
  | cons t ts ih =>
    simp only [List.map_cons]
    unfold insertSeg
    have hiff : (shAdj m t).1 ≤ (shAdj m s).1 ↔ t.1 ≤ s.1 := sub_le_sub_iff_right m
    by_cases hc : t.1 ≤ s.1
    · rw [if_pos (hiff.mpr hc), if_pos hc, List.map_cons, ih]
    · rw [if_neg (fun hx => hc (hiff.mp hx)), if_neg hc]
      simp

lemma foldl_insert_shAdj (m : ℚ) (l : List Seg4) :
    ∀ acc : List Seg4,
      (l.map (shAdj m)).foldl (fun a s => insertSeg s a) (acc.map (shAdj m)) =
        (l.foldl (fun a s => insertSeg s a) acc).map (shAdj m) := by
  induction l with
  | nil => intro acc; rfl
  | cons s ss ih =>
    intro acc
    simp only [List.map_cons, List.foldl_cons]
    rw [insertSeg_shAdj, ih]

lemma sortSegs_shAdj (m : ℚ) (l : List Seg4) :
    sortSegs (l.map (shAdj m)) = (sortSegs l).map (shAdj m) := by
  unfold sortSegs
  simpa using foldl_insert_shAdj m l []

lemma walk_shAdj (c m : ℚ) (l : List Seg4) :
    walk c (l.map (shAdj m)) = walk c l := by
  induction l generalizing c with
  | nil => rfl
  | cons x rest ih =>
    obtain ⟨a, b, dur, lab⟩ := x
    simp [walk, shAdj, ih]

/-! ## C1: the output timeline has zero gaps and zero overlaps -/

/-- C1: for every non-empty list of fuzzed segments the Key-Builder output
timeline starts at 0 and each following segment starts exactly where the
previous one ends (zero gaps, zero overlaps); in particular the fuzzed input
[(10,12,a), (20,21,b)] with fuzz 0 yields [(0,2,a), (2,3,b)]. -/
theorem key_timeline_gapless (segs out : List Seg) (h : keyTimeline segs = some out) :
    (∀ h0 : 0 < out.length, (out.get ⟨0, h0⟩).1 = 0) ∧
    (∀ (i : ℕ) (hi : i + 1 < out.length),
      (out.get ⟨i + 1, hi⟩).1 = (out.get ⟨i, Nat.lt_of_succ_lt hi⟩).2.1) ∧
    parse_data_key_num [(10, 12, "a"), (20, 21, "b")] 0 = some [(0, 2, "a"), (2, 3, "b")] := by
  obtain ⟨m, hm⟩ : ∃ m, minStart segs = some m := by
    cases segs with
    | nil => simp [keyTimeline, minStart] at h
    | cons s rest => exact ⟨_, rfl⟩
  rw [keyTimeline_eq_some hm] at h
  have hout : out = walk 0 (sortSegs (segs.map (shiftF m))) := (Option.some.inj h).symm
  subst hout
  refine ⟨?_, ?_, by with_unfolding_all decide⟩
  · intro h0
    exact walk_get_zero 0 _ h0
  · intro i hi
    exact walk_chain _ 0 i hi

/-- Witness for `key_timeline_gapless` at the two-segment example. -/
theorem key_timeline_gapless_witness :
    (([(0, 2, "a"), (2, 3, "b")] : List Seg).get ⟨0, by norm_num⟩).1 = 0 := by
  obtain ⟨h0, _, _⟩ := key_timeline_gapless [(10, 12, "a"), (20, 21, "b")]
    [(0, 2, "a"), (2, 3, "b")] (by with_unfolding_all decide)
  exact h0 (by norm_num)

/-! ## C7: durations are preserved -/

/-- C7: for every non-empty list of fuzzed segments, in every input ordering,
the (duration, label) pairs of the output timeline are a permutation of the
original fuzzed (end - start, label) pairs, and the i-th output duration
equals the duration of the i-th sorted segment, computed before re-basing. -/
theorem key_timeline_durations (segs out : List Seg) (h : keyTimeline segs = some out) :
    (out.map (fun p => (p.2.1 - p.1, p.2.2))).Perm
      (segs.map (fun p => (p.2.1 - p.1, p.2.2))) ∧
    (∀ m, minStart segs = some m →
      out.map (fun p => p.2.1 - p.1) = (sortSegs (segs.map (shiftF m))).map (fun p => p.2.2.1)) := by
  obtain ⟨m, hm⟩ : ∃ m, minStart segs = some m := by
    cases segs with
    | nil => simp [keyTimeline, minStart] at h
    | cons s rest => exact ⟨_, rfl⟩
  rw [keyTimeline_eq_some hm] at h
  have hout : out = walk 0 (sortSegs (segs.map (shiftF m))) := (Option.some.inj h).symm
  subst hout
  constructor
  · rw [walk_durlab]
    have hperm := (sortSegs_perm (segs.map (shiftF m))).map (fun p : Seg4 => (p.2.2.1, p.2.2.2))
    refine hperm.trans ?_
    rw [List.map_map]
    exact List.Perm.refl _
  · intro m2 hm2
    rw [hm2] at hm
    have : m2 = m := (Option.some.inj hm)
    subst this
    rw [walk_durs]

/-- Witness for `key_timeline_durations` at the two-segment example. -/
theorem key_timeline_durations_witness :
    (([(0, 2, "a"), (2, 3, "b")] : List Seg).map (fun p => (p.2.1 - p.1, p.2.2))).Perm
      (([(20, 21, "b"), (10, 12, "a")] : List Seg).map (fun p => (p.2.1 - p.1, p.2.2))) :=
  (key_timeline_durations [(20, 21, "b"), (10, 12, "a")] [(0, 2, "a"), (2, 3, "b")]
    (by with_unfolding_all decide)).1

/-! ## C8: stable sorting by re-based start -/

/-- C8: the Key-Builder sorts segments by re-based start ascending with a
stable sort: the sorted list is pairwise ordered on starts, is a permutation
of its input, the sublist at any fixed start value is unchanged (ties keep
original input order), the output rows carry the labels in sorted
(chronological) order, and the unsorted example [(20,21,b), (10,12,a)] with
fuzz 0 produces rows a then b. -/
theorem key_builder_sorts (segs out : List Seg) (m : ℚ)
    (hm : minStart segs = some m) (h : keyTimeline segs = some out) :
    (sortSegs (segs.map (shiftF m))).Pairwise (fun a b => a.1 ≤ b.1) ∧
    (sortSegs (segs.map (shiftF m))).Perm (segs.map (shiftF m)) ∧
    (∀ k : ℚ, (sortSegs (segs.map (shiftF m))).filter (fun t => decide (t.1 = k)) =
      (segs.map (shiftF m)).filter (fun t => decide (t.1 = k))) ∧
    out.map (fun p => p.2.2) = (sortSegs (segs.map (shiftF m))).map (fun p => p.2.2.2) ∧
    parse_data_key_num [(20, 21, "b"), (10, 12, "a")] 0 = some [(0, 2, "a"), (2, 3, "b")] := by
  rw [keyTimeline_eq_some hm] at h
  have hout : out = walk 0 (sortSegs (segs.map (shiftF m))) := (Option.some.inj h).symm
  subst hout
  exact ⟨sortSegs_pairwise _, sortSegs_perm _, fun k => sortSegs_filter _ k,
    walk_labels 0 _, by with_unfolding_all decide⟩

/-- Witness for `key_builder_sorts` at the unsorted two-segment example. -/
theorem key_builder_sorts_witness :
    parse_data_key_num [(20, 21, "b"), (10, 12, "a")] 0 = some [(0, 2, "a"), (2, 3, "b")] :=
  (key_builder_sorts [(20, 21, "b"), (10, 12, "a")] [(0, 2, "a"), (2, 3, "b")] 10
    (by with_unfolding_all decide) (by with_unfolding_all decide)).2.2.2.2

/-! ## C10: the re-basing subtraction is output-irrelevant -/

/-- C10: for every non-empty segment list, the Key-Builder with the re-basing
subtraction removed produces the identical numeric timeline: sorting order is
invariant under the uniform shift and the walk reads only durations and
labels, which the shift preserves. -/
theorem key_timeline_shift_irrelevant (segs : List Seg) (h : segs ≠ []) :
    keyTimeline segs = some (keyTimelineNoShift segs) := by
  obtain ⟨m, hm⟩ := minStart_of_ne_nil h
  rw [keyTimeline_eq_some hm]
  unfold keyTimelineNoShift
  have hcomp : segs.map (shiftF m) =
      (segs.map (fun s => (s.1, s.2.1, s.2.1 - s.1, s.2.2))).map (shAdj m) := by
    rw [List.map_map]
    rfl
  rw [hcomp, sortSegs_shAdj, walk_shAdj]

/-- Witness for `key_timeline_shift_irrelevant` at a one-segment list. -/
theorem key_timeline_shift_irrelevant_witness :
    keyTimeline [(10, 12, "a")] = some (keyTimelineNoShift [(10, 12, "a")]) :=
  key_timeline_shift_irrelevant [(10, 12, "a")] (List.cons_ne_nil _ _)

/-! ## Rendering lemmas for conv_time on the microsecond grid -/

lemma commaize_colon : commaize ':' = ':' := rfl

lemma rhe_intCast (z : ℤ) : rhe ((z : ℚ)) = z := by
  unfold rhe
  rw [Rat.num_intCast, Rat.den_intCast]
  norm_num [Int.fdiv_one]

lemma rhe_natCast (n : ℕ) : rhe ((n : ℚ)) = n := by
  have h : ((n : ℚ)) = ((n : ℤ) : ℚ) := by push_cast; ring
  rw [h, rhe_intCast]

lemma grid_mul (n : ℕ) : ((n : ℚ) / 1000000) * 1000000 = (n : ℚ) := by
  field_simp

lemma ofNat_fmod (m n : ℕ) : ((m % n : ℕ) : ℤ) = (m : ℤ).fmod n := by
  cases m with
  | zero => simp [Int.fmod]
  | succ k => rfl

lemma fdiv_natCast_usPerDay (m : ℕ) :
    ((m : ℤ)).fdiv usPerDay = ((m / 86400000000 : ℕ) : ℤ) := by
  have h : usPerDay = ((86400000000 : ℕ) : ℤ) := rfl
  rw [h, ← Int.ofNat_fdiv]

lemma fmod_natCast_usPerDay (m : ℕ) :
    ((m : ℤ)).fmod usPerDay = ((m % 86400000000 : ℕ) : ℤ) := by
  have h : usPerDay = ((86400000000 : ℕ) : ℤ) := rfl
  rw [h, ← ofNat_fmod]

lemma take11_of_14 (c1 c2 c3 c4 c5 c6 c7 c8 c9 c10 c11 c12 c13 c14 : Char) :
    [c1,c2,c3,c4,c5,c6,c7,c8,c9,c10,c11,c12,c13,c14].take 11 =
      [c1,c2,c3,c4,c5,c6,c7,c8,c9,c10,c11] := rfl

lemma take12_of_15 (c1 c2 c3 c4 c5 c6 c7 c8 c9 c10 c11 c12 c13 c14 c15 : Char) :
    [c1,c2,c3,c4,c5,c6,c7,c8,c9,c10,c11,c12,c13,c14,c15].take 12 =
      [c1,c2,c3,c4,c5,c6,c7,c8,c9,c10,c11,c12] := rfl

set_option maxRecDepth 4000 in
lemma conv_time_grid (n : ℕ) (h0 : 0 < n) (hn : n < 86400000000)
    (hok : n < 36000000000 ∨ n % 1000000 ≠ 0) :
    conv_time_chars ((n : ℚ) / 1000000) =
      subtitleChars (n / 3600000000) (n / 60000000 % 60) (n / 1000000 % 60) (n % 1000000 / 1000) := by
  have hq0 : ((n : ℚ) / 1000000) ≠ 0 := by
    have hc : (0 : ℚ) < (n : ℚ) := by exact_mod_cast h0
    positivity
  have hus : rhe (((n : ℚ) / 1000000) * 1000000) = (n : ℤ) := by
    rw [grid_mul, rhe_natCast]
  unfold conv_time_chars
  rw [if_neg hq0]
  unfold timedeltaStr
  rw [hus]
  unfold tdStrUS
  rw [fdiv_natCast_usPerDay, fmod_natCast_usPerDay]
  have hd0 : ((n / 86400000000 : ℕ) : ℤ) = 0 := by
    have he : n / 86400000000 = 0 := by omega
    rw [he]; rfl
  rw [hd0]
  have hrem : (((n % 86400000000 : ℕ) : ℤ)).toNat = n := by
    rw [Int.toNat_natCast]
    omega
  rw [hrem]
  unfold tdDays
  rw [if_pos rfl]
  by_cases hmic : n % 1000000 = 0
  · have hlt : n < 36000000000 := by
      rcases hok with h | h
      · exact h
      · exact absurd hmic h
    have hhlt : n / 1000000 / 3600 < 10 := by omega
    rw [if_pos hmic]
    unfold tdCore
    rw [natDigits_lt_ten hhlt, padDigits_two, padDigits_two]
    simp only [List.append_nil, List.cons_append, List.nil_append, List.map_cons, List.map_nil,
      commaize_dChar, commaize_colon]
    unfold pad67
    rw [if_pos (by simp)]
    unfold dropLast3
    simp only [List.length_append, List.length_cons, List.length_nil]
    norm_num
    unfold subtitleChars
    have hh2 : n / 3600000000 < 10 := by omega
    have e3 : n % 1000000 / 1000 = 0 := by omega
    rw [natDigits_lt_ten hh2, padDigits_two, padDigits_two, e3, padDigits_three]
    unfold rjustL
    norm_num
    exact ⟨congrArg dChar (by omega), congrArg dChar (by omega), congrArg dChar (by omega),
      by decide⟩
  · -- fractional-microsecond case
    rw [if_neg hmic]
    unfold tdCore
    rw [padDigits_two, padDigits_two, padDigits_six]
    have hh24 : n / 1000000 / 3600 < 24 := by omega
    by_cases hhlt : n / 1000000 / 3600 < 10
    · rw [natDigits_lt_ten hhlt]
      simp only [List.cons_append, List.nil_append, List.map_cons, List.map_nil, List.map_append,
        commaize_dChar, commaize_colon]
      have hdot : commaize '.' = ',' := rfl
      rw [hdot]
      unfold pad67
      rw [if_neg (by simp)]
      unfold dropLast3
      norm_num
      unfold subtitleChars
      have hh2 : n / 3600000000 < 10 := by omega
      rw [natDigits_lt_ten hh2, padDigits_two, padDigits_two, padDigits_three]
      unfold rjustL
      norm_num
      exact ⟨congrArg dChar (by omega), congrArg dChar (by omega), congrArg dChar (by omega),
        congrArg dChar (by omega), congrArg dChar (by omega)⟩
    · have hge : 10 ≤ n / 1000000 / 3600 := not_lt.mp hhlt
      rw [natDigits_two hge (by omega)]
      simp only [List.cons_append, List.nil_append, List.map_cons, List.map_nil, List.map_append,
        commaize_dChar, commaize_colon]
      have hdot : commaize '.' = ',' := rfl
      rw [hdot]
      unfold pad67
      rw [if_neg (by simp)]
      unfold dropLast3
      norm_num
      unfold subtitleChars
      have hge2 : 10 ≤ n / 3600000000 := by omega
      rw [natDigits_two hge2 (by omega), padDigits_two, padDigits_two, padDigits_three]
      unfold rjustL
      norm_num
      exact ⟨congrArg dChar (by omega), congrArg dChar (by omega), congrArg dChar (by omega),
        congrArg dChar (by omega), congrArg dChar (by omega), congrArg dChar (by omega)⟩


/-! ## C4: the subtitle rendering of conv_time -/

/-- C4 (amended): the value 0 maps to the literal 00:00:00,000, and every
non-zero microsecond-grid value below 24 hours that is below 10 hours or has
a non-zero microsecond part renders as zero-padded HH:MM:SS,mmm - comma as
fractional separator, exactly three truncated fractional digits, hour field
left-padded to at least two digits (12 characters in all).  Whole-second
values of 10 hours or more, and all values of 24 hours or more, are instead
rendered malformed (see the counterexample), so the original claim fails for
those producible values. -/
theorem conv_time_subtitle_format (n : ℕ) (h0 : 0 < n) (hn : n < 86400000000)
    (hok : n < 36000000000 ∨ n % 1000000 ≠ 0) :
    conv_time ((n : ℚ) / 1000000) =
      String.mk (subtitleChars (n / 3600000000) (n / 60000000 % 60) (n / 1000000 % 60)
        (n % 1000000 / 1000)) ∧
    conv_time 0 = "00:00:00,000" := by
  refine ⟨?_, rfl⟩
  unfold conv_time
  rw [conv_time_grid n h0 hn hok]

/-- Witness for `conv_time_subtitle_format` at 3661.25 seconds
(3661250000 microseconds). -/
theorem conv_time_subtitle_format_witness :
    conv_time ((3661250000 : ℕ) / 1000000 : ℚ) =
      String.mk (subtitleChars 1 1 1 250) ∧ conv_time 0 = "00:00:00,000" := by
  have h := conv_time_subtitle_format 3661250000 (by norm_num) (by norm_num)
    (Or.inl (by norm_num))
  norm_num at h
  norm_num
  exact h

set_option maxRecDepth 4000 in
/-- C4 counterexample: 36000 seconds (exactly 10 hours, producible from the
table entry 10:00:00 and reaching conv_time through the pipeline) renders as
the malformed string 000000010:00 rather than a HH:MM:SS,mmm string, and
86400 seconds (24 hours) renders with a day prefix, refuting the claim that
rendering is correct for every producible value including 24 hours or more. -/
theorem conv_time_subtitle_format_cex :
    parse_secs "10:00:00" = some 36000 ∧
    parse_data_key [("00:00", "10:00:00", "x")] 0 =
      some [("00:00:00,000", "000000010:00", "x")] ∧
    conv_time (36000 : ℚ) = "000000010:00" ∧
    conv_time (36000 : ℚ) ≠ String.mk (subtitleChars 10 0 0 0) ∧
    conv_time (86400 : ℚ) = "01 day, 0:00" := by
  refine ⟨?_, ?_, ?_, ?_, ?_⟩
  · have he : parse_secs "10:00:00" = some (secsOfFields 10 0 0 0) := rfl
    rw [he]
    norm_num [secsOfFields]
  · with_unfolding_all decide
  · with_unfolding_all decide
  · with_unfolding_all decide
  · with_unfolding_all decide

/-! ## Parsing the emitted subtitle format (for the round-trip claim) -/

lemma digitVal_dChar_lt {d : ℕ} (h : d < 10) : digitVal (dChar d) = d := by
  rw [digitVal_dChar]
  omega

lemma parseHH_pad (hh : ℕ) (h : hh < 10) (rest : List Char) :
    parseHH ('0' :: dChar hh :: rest) = some (hh, rest) := by
  simp only [parseHH]
  rw [if_pos (by decide)]
  rw [if_pos ⟨by rw [isDigitCh_dChar], by rw [show digitVal '0' = 0 from rfl, digitVal_dChar_lt h]; omega⟩]
  rw [show digitVal '0' = 0 from rfl, digitVal_dChar_lt h]
  norm_num

lemma parseMM_pad (mm : ℕ) (h : mm < 60) (rest : List Char) :
    parseMM (dChar (mm / 10 % 10) :: dChar (mm % 10) :: rest) = some (mm, rest) := by
  have hd0 : digitVal (dChar (mm / 10 % 10)) = mm / 10 := by
    rw [digitVal_dChar]
    omega
  have hd1 : digitVal (dChar (mm % 10)) = mm % 10 := by
    rw [digitVal_dChar]
    omega
  simp only [parseMM]
  rw [if_pos (by rw [isDigitCh_dChar])]
  rw [if_pos ⟨by rw [isDigitCh_dChar], by rw [hd0]; omega⟩]
  rw [hd0, hd1, show 10 * (mm / 10) + mm % 10 = mm by omega]

lemma parseSS_pad (ss : ℕ) (h : ss < 60) (rest : List Char) :
    parseSS (dChar (ss / 10 % 10) :: dChar (ss % 10) :: rest) = some (ss, rest) := by
  have hd0 : digitVal (dChar (ss / 10 % 10)) = ss / 10 := by
    rw [digitVal_dChar]
    omega
  have hd1 : digitVal (dChar (ss % 10)) = ss % 10 := by
    rw [digitVal_dChar]
    omega
  simp only [parseSS]
  rw [if_pos (by rw [isDigitCh_dChar])]
  rw [if_pos ⟨by rw [isDigitCh_dChar], Or.inl (by rw [hd0]; omega)⟩]
  rw [hd0, hd1, show 10 * (ss / 10) + ss % 10 = ss by omega]

lemma parseFrac_pad3 (ms : ℕ) (h : ms < 1000) :
    parseFrac [dChar (ms / 100 % 10), dChar (ms / 10 % 10), dChar (ms % 10)] =
      some (ms * 1000, []) := by
  unfold parseFrac
  simp only [List.takeWhile, isDigitCh_dChar]
  norm_num [digitsToNat, digitVal_dChar]
  omega

lemma parseLit_self (ch : Char) (rest : List Char) : parseLit ch (ch :: rest) = some rest := by
  simp [parseLit]

lemma strptime_sub_fmt (hh mm ss ms : ℕ) (h1 : hh < 10) (h2 : mm < 60) (h3 : ss < 60)
    (h4 : ms < 1000) :
    strptime_sub (subtitleChars hh mm ss ms) = some (secsOfFields hh mm ss (ms * 1000)) := by
  unfold subtitleChars
  rw [natDigits_lt_ten h1, padDigits_two, padDigits_two, padDigits_three]
  rw [show rjustL 2 '0' [dChar hh] = '0' :: [dChar hh] from rfl]
  simp only [List.cons_append, List.nil_append]
  unfold strptime_sub
  rw [parseHH_pad hh h1]
  simp only [Option.bind_eq_bind, Option.some_bind, parseLit_self, parseMM_pad mm h2,
    parseSS_pad ss h3, parseFrac_pad3 ms h4, List.isEmpty_nil, if_true]

/-! ## C2: the subtitle-time round trip -/

set_option maxRecDepth 4000 in
/-- C2 (amended): the values 0, 1.5 and 3661.25 round-trip through
seconds-to-subtitle and back, the literal 00:00:00,000 maps back to 0, and for
every microsecond-grid value below 10 hours the emitted string parses back to
its millisecond truncation, which re-renders to the identical string.  Above
10 hours the emitted-string round trip can fail (see the counterexample), so
the original unrestricted claim fails. -/
theorem conv_roundtrip (n : ℕ) (hn : n < 36000000000) :
    conv_time_str (conv_time ((n : ℚ) / 1000000)) =
      some (((n - n % 1000 : ℕ) : ℚ) / 1000000) ∧
    conv_time (((n - n % 1000 : ℕ) : ℚ) / 1000000) = conv_time ((n : ℚ) / 1000000) ∧
    conv_time_str (conv_time 0) = some 0 ∧
    conv_time_str (conv_time (3/2)) = some (3/2) ∧
    conv_time_str (conv_time (14645/4)) = some (14645/4) ∧
    conv_time_str "00:00:00,000" = some 0 := by
  refine ⟨?_, ?_, rfl, ?_, ?_, rfl⟩
  · rcases Nat.eq_zero_or_pos n with hz | hpos
    · subst hz
      norm_num
      rfl
    · have hgrid := conv_time_grid n hpos (by omega) (Or.inl hn)
      unfold conv_time
      rw [hgrid]
      have hb1 : n / 3600000000 < 10 := by omega
      have hb2 : n / 60000000 % 60 < 60 := by omega
      have hb3 : n / 1000000 % 60 < 60 := by omega
      have hb4 : n % 1000000 / 1000 < 1000 := by omega
      have hfmt := strptime_sub_fmt _ _ _ _ hb1 hb2 hb3 hb4
      have hval : secsOfFields (n / 3600000000) (n / 60000000 % 60) (n / 1000000 % 60)
          (n % 1000000 / 1000 * 1000) = ((n - n % 1000 : ℕ) : ℚ) / 1000000 := by
        unfold secsOfFields
        have hnat : (n - n % 1000) = (n / 3600000000 * 3600 + n / 60000000 % 60 * 60 +
            n / 1000000 % 60) * 1000000 + n % 1000000 / 1000 * 1000 := by omega
        rw [hnat]
        push_cast
        ring
      unfold conv_time_str
      by_cases hlit : String.mk (subtitleChars (n / 3600000000) (n / 60000000 % 60)
          (n / 1000000 % 60) (n % 1000000 / 1000)) = "00:00:00,000"
      · rw [if_pos hlit]
        have hdata : subtitleChars (n / 3600000000) (n / 60000000 % 60) (n / 1000000 % 60)
            (n % 1000000 / 1000) = "00:00:00,000".data := congrArg String.data hlit
        rw [hdata] at hfmt
        have h00 : strptime_sub ("00:00:00,000".data) = some (secsOfFields 0 0 0 0) := rfl
        rw [h00] at hfmt
        have hv0 : secsOfFields 0 0 0 0 = 0 := by norm_num [secsOfFields]
        rw [← hval, ← Option.some.inj hfmt, hv0]
      · rw [if_neg hlit]
        show strptime_sub (subtitleChars (n / 3600000000) (n / 60000000 % 60)
          (n / 1000000 % 60) (n % 1000000 / 1000)) = _
        rw [hfmt, hval]
  · rcases Nat.eq_zero_or_pos n with hz | hpos
    · subst hz
      norm_num
    · have hgrid := conv_time_grid n hpos (by omega) (Or.inl hn)
      rcases Nat.lt_or_ge n 1000 with hsmall | hbig
      · have hzero : n - n % 1000 = 0 := by omega
        rw [hzero]
        norm_num
        unfold conv_time
        rw [hgrid]
        have e1 : n / 3600000000 = 0 := by omega
        have e2 : n / 60000000 % 60 = 0 := by omega
        have e3 : n / 1000000 % 60 = 0 := by omega
        have e4 : n % 1000000 / 1000 = 0 := by omega
        rw [e1, e2, e3, e4]
        congr 1
      · have hpos2 : 0 < n - n % 1000 := by omega
        have hgrid2 := conv_time_grid (n - n % 1000) hpos2 (by omega) (Or.inl (by omega))
        unfold conv_time
        rw [hgrid, hgrid2]
        have e1 : (n - n % 1000) / 3600000000 = n / 3600000000 := by omega
        have e2 : (n - n % 1000) / 60000000 % 60 = n / 60000000 % 60 := by omega
        have e3 : (n - n % 1000) / 1000000 % 60 = n / 1000000 % 60 := by omega
        have e4 : (n - n % 1000) % 1000000 / 1000 = n % 1000000 / 1000 := by omega
        rw [e1, e2, e3, e4]
  · have hc : conv_time (3/2) = "00:00:01,500" := by with_unfolding_all decide
    have hp : conv_time_str "00:00:01,500" = some (secsOfFields 0 0 1 500000) := rfl
    rw [hc, hp]
    norm_num [secsOfFields]
  · have hc : conv_time (14645/4) = "01:01:01,250" := by with_unfolding_all decide
    have hp : conv_time_str "01:01:01,250" = some (secsOfFields 1 1 1 250000) := rfl
    rw [hc, hp]
    norm_num [secsOfFields]

/-- Witness for `conv_roundtrip` at 3661.25 seconds (3661250000 microseconds). -/
theorem conv_roundtrip_witness :
    conv_time_str (conv_time (((3661250000 : ℕ) : ℚ) / 1000000)) =
      some ((((3661250000 - 3661250000 % 1000 : ℕ) : ℚ)) / 1000000) :=
  (conv_roundtrip 3661250000 (by norm_num)).1

set_option maxRecDepth 4000 in
/-- C2 counterexample: the pipeline run on the single row (00:00, 10:00:00)
with fuzz 0.0005 emits the well-formed subtitle string 10:00:00,000; parsing
that emitted string back gives 36000 seconds, which re-renders as the
different (malformed) string 000000010:00, so
seconds_to_subtitle (subtitle_to_seconds t) = t fails for an emitted subtitle
string t. -/
theorem conv_roundtrip_cex :
    parse_data_key [("00:00", "10:00:00", "x")] (1/2000) =
      some [("00:00:00,000", "10:00:00,000", "x")] ∧
    conv_time_str "10:00:00,000" = some 36000 ∧
    conv_time (36000 : ℚ) = "000000010:00" ∧
    ("000000010:00" : String) ≠ "10:00:00,000" := by
  refine ⟨by with_unfolding_all decide, ?_, by with_unfolding_all decide, by decide⟩
  have he : conv_time_str "10:00:00,000" = some (secsOfFields 10 0 0 0) := rfl
  rw [he]
  norm_num [secsOfFields]

/-! ## C3: the end-to-end example -/

/-- C3 (amended): for the table rows (00:00:10, 00:00:12, intro) and
(00:00:20, 00:00:21, café) with fuzz 0, the command filter predicate is
between(t,10.0,12.0)+between(t,20.0,21.0) - the endpoints are Python floats
and render with a trailing .0 - and the key rows are
(00:00:00,000, 00:00:02,000, intro) and (00:00:02,000, 00:00:03,000, cafe)
with the diacritic folded to ASCII. -/
theorem end_to_end_example :
    (parse_data_ffmpeg [("00:00:10", "00:00:12", "intro"), ("00:00:20", "00:00:21", "café")]
        0).map cmdSelect = some "between(t,10.0,12.0)+between(t,20.0,21.0)" ∧
    parse_data_key [("00:00:10", "00:00:12", "intro"), ("00:00:20", "00:00:21", "café")] 0 =
      some [("00:00:00,000", "00:00:02,000", "intro"),
        ("00:00:02,000", "00:00:03,000", "cafe")] := by
  exact ⟨by with_unfolding_all decide, by with_unfolding_all decide⟩

/-- C3 counterexample: the predicate string the Command-Builder actually
produces differs from the between(t,10,12)+between(t,20,21) of the claim -
the float endpoints carry a .0 suffix. -/
theorem end_to_end_cex :
    (parse_data_ffmpeg [("00:00:10", "00:00:12", "intro"), ("00:00:20", "00:00:21", "café")]
        0).map cmdSelect ≠ some "between(t,10,12)+between(t,20,21)" := by
  with_unfolding_all decide

end Avslice
